import Mathlib

/-!
# Verification of the transactional file-storage core (`internal/files/files.go`)

The storage core keeps two bolt buckets in one database:

* `USERDATA_BUCKET` maps a user identifier to the JSON encoding of a
  `UserData` record (the per-user index: file name → `FileMetadata`);
* `FILES_BUCKET` maps an opaque content identifier (a UUID string) to the
  raw bytes of that file.

We embed the buckets as association lists keyed by strings.  A stored
index record is either a well-formed `UserData` value (JSON that
deserializes) or `corrupt` (JSON that fails to deserialize); `json.Marshal`
of a `UserData` value never fails and always round-trips, so every record
written by the code is well-formed.  Bolt's `Get` returns `nil` for a
missing key, which we model as `none`; `Put` inserts or replaces; `Delete`
removes the key (idempotent).  A `db.Update` transaction whose closure
returns an error rolls back, so a failing operation leaves the state
unchanged and only successful operations produce new states.

Bytes are modelled as `List Nat` (the byte values themselves never matter
to the storage core).
-/

set_option autoImplicit false

namespace GoFileServer

/-- Raw file content. -/
abbrev Bytes := List Nat

/-- `FileMetadata` from files.go: content identifier, MIME type, byte length. -/
structure FileMetadata where
  ID : String
  ContentType : String
  ContentLength : Nat
  deriving DecidableEq, Repr

/-- `UserData` from files.go: the per-user map from file name to metadata,
modelled as an association list (a Go map has no duplicate keys; lookups
use the first matching entry). -/
structure UserData where
  Files : List (String × FileMetadata)
  deriving DecidableEq, Repr

/-- A stored index record as read back from the user-data bucket: either it
deserializes to a `UserData` value or `json.Unmarshal` fails on it. -/
inductive IndexRecord where
  | record (d : UserData)
  | corrupt
  deriving DecidableEq, Repr

/-- The whole database: the user-data bucket and the files (blob) bucket. -/
structure DB where
  userFilesBucket : List (String × IndexRecord)
  filesBucket : List (String × Bytes)
  deriving DecidableEq, Repr

/-! ## Bucket / Go-map primitives -/

/-- Bolt bucket `Get` / Go map read: the value at the first matching key,
`none` when the key is absent. -/
def getK {α : Type} : List (String × α) → String → Option α
  | [], _ => none
  | (k, v) :: rest, key => if k = key then some v else getK rest key

/-- Bolt bucket `Put` / Go map write: replace the value at an existing key,
or append a fresh binding. -/
def putK {α : Type} : List (String × α) → String → α → List (String × α)
  | [], key, v => [(key, v)]
  | (k, w) :: rest, key, v =>
      if k = key then (k, v) :: rest else (k, w) :: putK rest key v

/-- Bolt bucket `Delete` / Go map `delete`: remove every binding of the key
(idempotent; deleting an absent key succeeds). -/
def delK {α : Type} (m : List (String × α)) (key : String) : List (String × α) :=
  m.filter (fun p => if p.1 = key then false else true)

theorem getK_putK {α : Type} (m : List (String × α)) (k k' : String) (v : α) :
    getK (putK m k v) k' = if k' = k then some v else getK m k' := by
  induction m with
  | nil =>
    simp only [putK, getK]
    by_cases h : k = k'
    · subst h; simp
    · rw [if_neg h, if_neg (fun h' => h h'.symm)]
  | cons p rest ih =>
    obtain ⟨a, b⟩ := p
    simp only [putK]
    by_cases hak : a = k
    · subst hak
      simp only [if_pos rfl, getK]
      by_cases h : a = k'
      · subst h; simp
      · rw [if_neg h, if_neg h, if_neg (fun h' => h h'.symm)]
    · rw [if_neg hak]
      simp only [getK]
      by_cases h : a = k'
      · subst h
        rw [if_pos rfl, if_pos rfl, if_neg hak]
      · rw [if_neg h, if_neg h, ih]

theorem delK_cons {α : Type} (a : String) (b : α) (rest : List (String × α)) (k : String) :
    delK ((a, b) :: rest) k = if a = k then delK rest k else (a, b) :: delK rest k := by
  by_cases h : a = k <;> simp [delK, List.filter_cons, h]

theorem getK_delK {α : Type} (m : List (String × α)) (k k' : String) :
    getK (delK m k) k' = if k' = k then none else getK m k' := by
  induction m with
  | nil =>
    simp only [delK, List.filter_nil, getK]
    by_cases h : k' = k <;> simp [h]
  | cons p rest ih =>
    obtain ⟨a, b⟩ := p
    rw [delK_cons]
    by_cases hak : a = k
    · subst hak
      rw [if_pos rfl, ih]
      simp only [getK]
      by_cases h : k' = a
      · subst h; simp
      · rw [if_neg h, if_neg h, if_neg (fun h' => h h'.symm)]
    · rw [if_neg hak]
      simp only [getK]
      by_cases h : a = k'
      · subst h
        rw [if_pos rfl, if_pos rfl, if_neg hak]
      · rw [if_neg h, if_neg h, ih]

/-- A successful lookup means the key occurs among the stored keys. -/
theorem getK_some_mem_fst {α : Type} {m : List (String × α)} {k : String} {v : α}
    (h : getK m k = some v) : k ∈ m.map Prod.fst := by
  induction m with
  | nil => simp [getK] at h
  | cons p rest ih =>
    obtain ⟨a, b⟩ := p
    by_cases hak : a = k
    · subst hak; simp
    · simp [getK, hak] at h
      simp [ih h]

/-- Writing at a key that is already bound leaves the key list unchanged. -/
theorem map_fst_putK_present {α : Type} {m : List (String × α)} {k : String} {v0 : α}
    (h : getK m k = some v0) (v : α) :
    (putK m k v).map Prod.fst = m.map Prod.fst := by
  induction m with
  | nil => simp [getK] at h
  | cons p rest ih =>
    obtain ⟨a, b⟩ := p
    by_cases hak : a = k
    · simp [putK, hak]
    · simp [getK, hak] at h
      simp [putK, hak, ih h]

/-! ## The four operations of files.go -/

/-- `ListFilenames` from files.go.  The `db.View` closure returns an error
when the user record is absent ("user not found") or fails to deserialize,
but the function discards that error: it returns only the accumulated
`filenames`, substituting an empty slice for `nil`.  So both the absent
and the corrupt case yield an empty list. -/
def ListFilenames (db : DB) (userID : String) : List String :=
  match getK db.userFilesBucket userID with
  | none => []
  | some IndexRecord.corrupt => []
  | some (IndexRecord.record d) => d.Files.map Prod.fst

/-- `GetFile` from files.go: returns `(bytes, contentType, present)`.
Absent user, corrupt record and missing file name all make the closure
return an error before `bytes`/`contentType` are assigned, so the caller
observes `(nil, "", false)` identically in each case.  When the descriptor
exists, the blob is read at its `ID`; bolt returns `nil` for a missing
blob key and the code copies it into a fresh zero-length slice, so a
dangling descriptor yields zero bytes with `present = true`. -/
def GetFile (db : DB) (userID filename : String) : Bytes × String × Bool :=
  match getK db.userFilesBucket userID with
  | none => ([], "", false)
  | some IndexRecord.corrupt => ([], "", false)
  | some (IndexRecord.record d) =>
    match getK d.Files filename with
    | none => ([], "", false)
    | some md => ((getK db.filesBucket md.ID).getD [], md.ContentType, true)

/-- The descriptor `PutFile` stores for `filename`: when the name already
has a descriptor its `ID` is kept and only `ContentType`/`ContentLength`
change; when the name is new, a fresh `newID` (drawn by
`uuid.New().String()`) becomes the `ID`. -/
def descriptorFor (files0 : List (String × FileMetadata))
    (filename contentType : String) (bytes : Bytes) (newID : String) : FileMetadata :=
  match getK files0 filename with
  | some old => { old with ContentType := contentType, ContentLength := bytes.length }
  | none => { ID := newID, ContentType := contentType, ContentLength := bytes.length }

/-- The committed effect of a successful `PutFile` transaction: update or
create the descriptor for `filename` in the loaded `files0` map, write the
re-encoded index record, and write the blob at the descriptor's `ID`. -/
def putFileBody (db : DB) (userID filename contentType : String) (bytes : Bytes)
    (newID : String) (files0 : List (String × FileMetadata)) : DB :=
  let md : FileMetadata := descriptorFor files0 filename contentType bytes newID
  { userFilesBucket := putK db.userFilesBucket userID (IndexRecord.record ⟨putK files0 filename md⟩),
    filesBucket := putK db.filesBucket md.ID bytes }

/-- `PutFile` from files.go.  A corrupt stored record makes `json.Unmarshal`
fail, the closure returns the error and the transaction rolls back; an
absent record starts from an empty `Files` map. -/
def PutFile (db : DB) (userID filename contentType : String) (bytes : Bytes)
    (newID : String) : Except String DB :=
  match getK db.userFilesBucket userID with
  | some IndexRecord.corrupt => Except.error "Failed parsing JSON for UserData"
  | some (IndexRecord.record d) =>
      Except.ok (putFileBody db userID filename contentType bytes newID d.Files)
  | none => Except.ok (putFileBody db userID filename contentType bytes newID [])

/-- `DeleteFile` from files.go.  No user record: the closure returns `nil`
and the (write) transaction commits having written nothing — success, state
unchanged.  Corrupt record: the unmarshal error rolls the transaction back.
File name absent: the "file not found" error rolls the transaction back.
Otherwise the entry is removed, the index re-encoded and written, and the
blob deleted at the captured `fileID`. -/
def DeleteFile (db : DB) (userID filename : String) : Except String DB :=
  match getK db.userFilesBucket userID with
  | none => Except.ok db
  | some IndexRecord.corrupt => Except.error "Failed parsing JSON for UserData"
  | some (IndexRecord.record d) =>
    match getK d.Files filename with
    | none => Except.error "file not found"
    | some md =>
      Except.ok
        { userFilesBucket := putK db.userFilesBucket userID (IndexRecord.record ⟨delK d.Files filename⟩),
          filesBucket := delK db.filesBucket md.ID }

/-! ## Well-formedness, freshness and referential integrity -/

/-- A state is well formed when every stored index record deserializes
(no record in the user-data bucket is corrupt). -/
def WellFormed (db : DB) : Prop :=
  ∀ p ∈ db.userFilesBucket, p.2 ≠ IndexRecord.corrupt

/-- `uuid.New()` freshness: the drawn identifier is not a key of the blob
bucket and is not the `contentID` of any stored descriptor. -/
def FreshID (db : DB) (id : String) : Prop :=
  getK db.filesBucket id = none ∧
  ∀ u d f md, getK db.userFilesBucket u = some (IndexRecord.record d) →
    getK d.Files f = some md → md.ID ≠ id

/-- Every `contentID` referenced by a stored descriptor has a live entry in
the blob bucket. -/
def LiveRefs (db : DB) : Prop :=
  ∀ u d f md, getK db.userFilesBucket u = some (IndexRecord.record d) →
    getK d.Files f = some md → (getK db.filesBucket md.ID).isSome = true

/-- No `contentID` is referenced by two distinct `(user, file name)` pairs. -/
def UniqueRefs (db : DB) : Prop :=
  ∀ u1 d1 f1 md1 u2 d2 f2 md2,
    getK db.userFilesBucket u1 = some (IndexRecord.record d1) →
    getK d1.Files f1 = some md1 →
    getK db.userFilesBucket u2 = some (IndexRecord.record d2) →
    getK d2.Files f2 = some md2 →
    md1.ID = md2.ID → u1 = u2 ∧ f1 = f2

/-- Referential integrity between the per-user indexes and the blob store. -/
def RefIntegrity (db : DB) : Prop := LiveRefs db ∧ UniqueRefs db

/-- States reachable from the freshly initialized database (two empty
buckets) by committed operations.  `ListFilenames` and `GetFile` open
read-only transactions and never change the state; a `PutFile` or
`DeleteFile` whose transaction rolls back leaves the state unchanged, so
only their successful commits produce new states.  The `FreshID` premise
on `put` models the collision-freeness of `uuid.New()`. -/
inductive Reachable : DB → Prop where
  | init : Reachable ⟨[], []⟩
  | put {db db' : DB} {u f ct id : String} {b : Bytes} :
      Reachable db → FreshID db id → PutFile db u f ct b id = Except.ok db' →
      Reachable db'
  | del {db db' : DB} {u f : String} :
      Reachable db → DeleteFile db u f = Except.ok db' → Reachable db'

/-- The error component of a `PutFile`/`DeleteFile` outcome: which error,
if any, the caller observes. -/
def errOf : Except String DB → Option String
  | Except.ok _ => none
  | Except.error e => some e

/-! ## Further bucket lemmas -/

theorem getK_some_mem {α : Type} {m : List (String × α)} {k : String} {v : α}
    (h : getK m k = some v) : (k, v) ∈ m := by
  induction m with
  | nil => simp [getK] at h
  | cons p rest ih =>
    obtain ⟨a, b⟩ := p
    by_cases hak : a = k
    · subst hak
      simp [getK] at h
      simp [h]
    · simp [getK, hak] at h
      simp [ih h]

theorem not_mem_map_fst_delK {α : Type} (m : List (String × α)) (k : String) :
    k ∉ (delK m k).map Prod.fst := by
  intro h
  obtain ⟨p, hp, hpk⟩ := List.mem_map.1 h
  have hpred := (List.mem_filter.1 hp).2
  rw [if_pos hpk] at hpred
  exact Bool.false_ne_true hpred

/-- Reading then writing back at the same file name under `u` and then
reading `u`'s record yields the freshly written record. -/
theorem getK_putK_self {α : Type} (m : List (String × α)) (k : String) (v : α) :
    getK (putK m k v) k = some v := by
  rw [getK_putK, if_pos rfl]

/-! ## Claim theorems -/

/-- C1: on any well-formed state, `PutFile u f ct b` succeeds and a
subsequent `GetFile u f` returns exactly the stored bytes and content type
with the file reported present. -/
theorem putFile_getFile_roundtrip (db : DB) (u f ct : String) (b : Bytes) (newID : String)
    (hwf : WellFormed db) :
    ∃ db', PutFile db u f ct b newID = Except.ok db' ∧
      GetFile db' u f = (b, ct, true) := by
  have body : ∀ files0, GetFile (putFileBody db u f ct b newID files0) u f = (b, ct, true) := by
    intro files0
    unfold putFileBody descriptorFor GetFile
    cases hf : getK files0 f <;>
      simp [hf, getK_putK]
  cases hu : getK db.userFilesBucket u with
  | none => exact ⟨_, by simp [PutFile, hu], body []⟩
  | some r =>
    cases r with
    | record d => exact ⟨_, by simp [PutFile, hu], body d.Files⟩
    | corrupt => exact absurd rfl (hwf _ (getK_some_mem hu))

theorem putFile_getFile_roundtrip_witness :
    WellFormed ⟨[], []⟩ ∧
      ∃ db', PutFile ⟨[], []⟩ "alice" "notes.txt" "text/plain" [104, 105] "id-1" =
          Except.ok db' ∧
        GetFile db' "alice" "notes.txt" = ([104, 105], "text/plain", true) :=
  ⟨(by intro p hp; cases hp),
   putFile_getFile_roundtrip ⟨[], []⟩ "alice" "notes.txt" "text/plain" [104, 105] "id-1"
     (by intro p hp; cases hp)⟩

/-- C3: when user `u1`'s stored index record fails to deserialize,
`ListFilenames` does NOT surface any error: the `db.View` closure's error
is discarded by the function (its signature returns only the name slice),
so the caller observes an empty list — corruption is silently treated as
an empty index, contradicting the spec. -/
theorem listFilenames_corrupt_returns_empty :
    ListFilenames ⟨[("u1", IndexRecord.corrupt)], []⟩ "u1" = [] := by
  simp [ListFilenames, getK]

/-- C6: `GetFile` returns the identical observable result — no bytes, empty
content type, not present — whether the user has no index record at all or
has a record whose files map lacks the requested name. -/
theorem getFile_notFound_uniform (s1 s2 : DB) (u f : String) (d : UserData)
    (h1 : getK s1.userFilesBucket u = none)
    (h2 : getK s2.userFilesBucket u = some (IndexRecord.record d))
    (h3 : getK d.Files f = none) :
    GetFile s1 u f = GetFile s2 u f ∧ GetFile s1 u f = ([], "", false) := by
  simp [GetFile, h1, h2, h3]

theorem getFile_notFound_uniform_witness :
    GetFile ⟨[], []⟩ "bob" "x.txt" =
        GetFile ⟨[("bob", IndexRecord.record ⟨[]⟩)], []⟩ "bob" "x.txt" ∧
      GetFile ⟨[], []⟩ "bob" "x.txt" = ([], "", false) :=
  getFile_notFound_uniform ⟨[], []⟩ ⟨[("bob", IndexRecord.record ⟨[]⟩)], []⟩
    "bob" "x.txt" ⟨[]⟩ rfl (by simp [getK]) rfl

/-- C8: deleting any file name for a user with no index record succeeds as
a no-op: the transaction closure returns `nil` without writing, so the
state is unchanged and no error is reported. -/
theorem deleteFile_absent_user_noop (db : DB) (u f : String)
    (h : getK db.userFilesBucket u = none) :
    DeleteFile db u f = Except.ok db := by
  simp [DeleteFile, h]

theorem deleteFile_absent_user_noop_witness :
    DeleteFile ⟨[("alice", IndexRecord.record ⟨[]⟩)], []⟩ "ghost" "a.txt" =
      Except.ok ⟨[("alice", IndexRecord.record ⟨[]⟩)], []⟩ :=
  deleteFile_absent_user_noop ⟨[("alice", IndexRecord.record ⟨[]⟩)], []⟩ "ghost" "a.txt"
    (by simp [getK])

/-- C9: listing files for a user with no index record returns the empty
list (the function has no error result at all, so no error is possible). -/
theorem listFilenames_absent_user_empty (db : DB) (u : String)
    (h : getK db.userFilesBucket u = none) :
    ListFilenames db u = [] := by
  simp [ListFilenames, h]

theorem listFilenames_absent_user_empty_witness :
    ListFilenames ⟨[("alice", IndexRecord.record ⟨[]⟩)], []⟩ "ghost" = [] :=
  listFilenames_absent_user_empty ⟨[("alice", IndexRecord.record ⟨[]⟩)], []⟩ "ghost"
    (by simp [getK])

/-- C10: when a descriptor is present but its `contentID` has no blob
entry, `GetFile` still reports the file present and returns zero bytes
(bolt's `Get` yields `nil`, which the copy turns into an empty slice)
together with the stored content type. -/
theorem getFile_dangling_contentID (db : DB) (u f : String) (d : UserData)
    (md : FileMetadata)
    (hu : getK db.userFilesBucket u = some (IndexRecord.record d))
    (hf : getK d.Files f = some md)
    (hb : getK db.filesBucket md.ID = none) :
    GetFile db u f = ([], md.ContentType, true) := by
  simp [GetFile, hu, hf, hb]

theorem getFile_dangling_contentID_witness :
    GetFile ⟨[("carol", IndexRecord.record ⟨[("f.bin", ⟨"id-9", "app/bin", 5⟩)]⟩)], []⟩
        "carol" "f.bin" = ([], "app/bin", true) :=
  getFile_dangling_contentID
    ⟨[("carol", IndexRecord.record ⟨[("f.bin", ⟨"id-9", "app/bin", 5⟩)]⟩)], []⟩
    "carol" "f.bin" ⟨[("f.bin", ⟨"id-9", "app/bin", 5⟩)]⟩ ⟨"id-9", "app/bin", 5⟩
    (by simp [getK]) (by simp [getK]) rfl

/-- C4: `PutFile` on a file name that already has a descriptor keeps the
existing `contentID` (the blob bucket is written only at that identifier —
no new identifier is allocated), updates `ContentType` and
`ContentLength`, and afterwards `GetFile` returns the new bytes and
content type while `ListFilenames` contains exactly one entry named `f`.
The `Nodup` premise is the Go-map representation invariant (a map has no
duplicate keys). -/
theorem putFile_existing_reuses_contentID (db : DB) (u f ct2 : String) (b2 : Bytes)
    (newID : String) (d : UserData) (md : FileMetadata)
    (hu : getK db.userFilesBucket u = some (IndexRecord.record d))
    (hf : getK d.Files f = some md)
    (hnd : (d.Files.map Prod.fst).Nodup) :
    ∃ db', PutFile db u f ct2 b2 newID = Except.ok db' ∧
      db'.filesBucket = putK db.filesBucket md.ID b2 ∧
      getK db'.userFilesBucket u =
        some (IndexRecord.record ⟨putK d.Files f ⟨md.ID, ct2, b2.length⟩⟩) ∧
      GetFile db' u f = (b2, ct2, true) ∧
      List.count f (ListFilenames db' u) = 1 := by
  refine ⟨putFileBody db u f ct2 b2 newID d.Files, by simp [PutFile, hu], ?_, ?_, ?_, ?_⟩
  · simp [putFileBody, descriptorFor, hf]
  · simp [putFileBody, descriptorFor, hf, getK_putK_self]
  · unfold putFileBody descriptorFor GetFile
    simp [hf, getK_putK]
  · have hrec : getK (putFileBody db u f ct2 b2 newID d.Files).userFilesBucket u =
        some (IndexRecord.record ⟨putK d.Files f ⟨md.ID, ct2, b2.length⟩⟩) := by
      simp [putFileBody, descriptorFor, hf, getK_putK_self]
    have hkeys : (putK d.Files f (⟨md.ID, ct2, b2.length⟩ : FileMetadata)).map Prod.fst =
        d.Files.map Prod.fst := map_fst_putK_present hf _
    simp only [ListFilenames, hrec, hkeys]
    exact List.count_eq_one_of_mem hnd (getK_some_mem_fst hf)

theorem putFile_existing_reuses_contentID_witness :
    ∃ db', PutFile ⟨[("alice", IndexRecord.record ⟨[("a.txt", ⟨"id-1", "text/plain", 2⟩)]⟩)],
          [("id-1", [104, 105])]⟩ "alice" "a.txt" "text/html" [1, 2, 3] "id-2" =
        Except.ok db' ∧
      db'.filesBucket = putK [("id-1", [104, 105])] "id-1" [1, 2, 3] ∧
      getK db'.userFilesBucket "alice" =
        some (IndexRecord.record ⟨putK [("a.txt", ⟨"id-1", "text/plain", 2⟩)] "a.txt"
          ⟨"id-1", "text/html", 3⟩⟩) ∧
      GetFile db' "alice" "a.txt" = ([1, 2, 3], "text/html", true) ∧
      List.count "a.txt" (ListFilenames db' "alice") = 1 :=
  putFile_existing_reuses_contentID
    ⟨[("alice", IndexRecord.record ⟨[("a.txt", ⟨"id-1", "text/plain", 2⟩)]⟩)],
      [("id-1", [104, 105])]⟩
    "alice" "a.txt" "text/html" [1, 2, 3] "id-2"
    ⟨[("a.txt", ⟨"id-1", "text/plain", 2⟩)]⟩ ⟨"id-1", "text/plain", 2⟩
    (by simp [getK]) (by simp [getK]) (by simp)

/-- C5: deleting a file name that is present removes its entry from the
persisted index and deletes the blob at the captured `contentID`;
afterwards the listing excludes the name and `GetFile` reports not found.
Deleting a name that is absent from an existing index signals the
"file not found" error. -/
theorem deleteFile_removes_entry_and_blob (db : DB) (u f : String) (d : UserData) :
    (∀ md, getK db.userFilesBucket u = some (IndexRecord.record d) →
      getK d.Files f = some md →
      ∃ db', DeleteFile db u f = Except.ok db' ∧
        db'.userFilesBucket =
          putK db.userFilesBucket u (IndexRecord.record ⟨delK d.Files f⟩) ∧
        db'.filesBucket = delK db.filesBucket md.ID ∧
        f ∉ ListFilenames db' u ∧
        GetFile db' u f = ([], "", false)) ∧
    (getK db.userFilesBucket u = some (IndexRecord.record d) →
      getK d.Files f = none →
      DeleteFile db u f = Except.error "file not found") := by
  constructor
  · intro md hu hf
    refine ⟨⟨putK db.userFilesBucket u (IndexRecord.record ⟨delK d.Files f⟩),
        delK db.filesBucket md.ID⟩, by simp [DeleteFile, hu, hf], rfl, rfl, ?_, ?_⟩
    · simp only [ListFilenames, getK_putK_self]
      exact not_mem_map_fst_delK d.Files f
    · simp [GetFile, getK_putK_self, getK_delK]
  · intro hu hf
    simp [DeleteFile, hu, hf]

theorem deleteFile_removes_entry_and_blob_witness :
    (∃ db', DeleteFile ⟨[("alice", IndexRecord.record ⟨[("a.txt", ⟨"id-1", "text/plain", 2⟩)]⟩)],
          [("id-1", [104, 105])]⟩ "alice" "a.txt" = Except.ok db' ∧
        db'.userFilesBucket =
          putK [("alice", IndexRecord.record ⟨[("a.txt", ⟨"id-1", "text/plain", 2⟩)]⟩)]
            "alice" (IndexRecord.record ⟨delK [("a.txt", ⟨"id-1", "text/plain", 2⟩)] "a.txt"⟩) ∧
        db'.filesBucket = delK [("id-1", [104, 105])] "id-1" ∧
        "a.txt" ∉ ListFilenames db' "alice" ∧
        GetFile db' "alice" "a.txt" = ([], "", false)) ∧
      DeleteFile ⟨[("alice", IndexRecord.record ⟨[("a.txt", ⟨"id-1", "text/plain", 2⟩)]⟩)],
          [("id-1", [104, 105])]⟩ "alice" "other.txt" = Except.error "file not found" :=
  ⟨(deleteFile_removes_entry_and_blob
      ⟨[("alice", IndexRecord.record ⟨[("a.txt", ⟨"id-1", "text/plain", 2⟩)]⟩)],
        [("id-1", [104, 105])]⟩
      "alice" "a.txt" ⟨[("a.txt", ⟨"id-1", "text/plain", 2⟩)]⟩).1
    ⟨"id-1", "text/plain", 2⟩ (by simp [getK]) (by simp [getK]),
   (deleteFile_removes_entry_and_blob
      ⟨[("alice", IndexRecord.record ⟨[("a.txt", ⟨"id-1", "text/plain", 2⟩)]⟩)],
        [("id-1", [104, 105])]⟩
      "alice" "other.txt" ⟨[("a.txt", ⟨"id-1", "text/plain", 2⟩)]⟩).2
    (by simp [getK]) (by simp [getK])⟩

/-! ## Inversion lemmas for bucket writes -/

theorem getK_putK_cases {α : Type} {m : List (String × α)} {k k' : String} {v w : α}
    (h : getK (putK m k v) k' = some w) :
    (k' = k ∧ w = v) ∨ (k' ≠ k ∧ getK m k' = some w) := by
  rw [getK_putK] at h
  by_cases hk : k' = k
  · rw [if_pos hk] at h
    exact Or.inl ⟨hk, (Option.some.inj h).symm⟩
  · rw [if_neg hk] at h
    exact Or.inr ⟨hk, h⟩

theorem getK_delK_cases {α : Type} {m : List (String × α)} {k k' : String} {w : α}
    (h : getK (delK m k) k' = some w) : k' ≠ k ∧ getK m k' = some w := by
  rw [getK_delK] at h
  by_cases hk : k' = k
  · rw [if_pos hk] at h
    cases h
  · rw [if_neg hk] at h
    exact ⟨hk, h⟩

/-- How `PutFile` loads the index map: either the user has no record and an
empty map is initialized, or the stored record deserializes to it. -/
def LoadedIndex (db : DB) (userID : String)
    (files0 : List (String × FileMetadata)) : Prop :=
  getK db.userFilesBucket userID = none ∧ files0 = [] ∨
    getK db.userFilesBucket userID = some (IndexRecord.record ⟨files0⟩)

theorem putFileBody_userFilesBucket (db : DB) (u f ct : String) (b : Bytes) (id : String)
    (files0 : List (String × FileMetadata)) :
    (putFileBody db u f ct b id files0).userFilesBucket =
      putK db.userFilesBucket u
        (IndexRecord.record ⟨putK files0 f (descriptorFor files0 f ct b id)⟩) := rfl

theorem putFileBody_filesBucket (db : DB) (u f ct : String) (b : Bytes) (id : String)
    (files0 : List (String × FileMetadata)) :
    (putFileBody db u f ct b id files0).filesBucket =
      putK db.filesBucket (descriptorFor files0 f ct b id).ID b := rfl

/-- Every descriptor visible after a committed `PutFile` is either the
freshly written one (at `(u, f)`) or a descriptor already stored before. -/
theorem refs_after_putFileBody {db : DB} {u f ct id : String} {b : Bytes}
    {files0 : List (String × FileMetadata)}
    (hload : LoadedIndex db u files0)
    {u1 f1 : String} {d1 : UserData} {md1 : FileMetadata}
    (h1 : getK (putFileBody db u f ct b id files0).userFilesBucket u1 =
      some (IndexRecord.record d1))
    (h2 : getK d1.Files f1 = some md1) :
    (u1 = u ∧ f1 = f ∧ md1 = descriptorFor files0 f ct b id) ∨
    (¬(u1 = u ∧ f1 = f) ∧
      ∃ d0, getK db.userFilesBucket u1 = some (IndexRecord.record d0) ∧
        getK d0.Files f1 = some md1) := by
  rw [putFileBody_userFilesBucket] at h1
  rcases getK_putK_cases h1 with ⟨hu1, hrec⟩ | ⟨hu1, hold⟩
  · injection hrec with hd1
    subst hd1
    rcases getK_putK_cases h2 with ⟨hf1, hmd⟩ | ⟨hf1, hmem⟩
    · exact Or.inl ⟨hu1, hf1, hmd⟩
    · rcases hload with ⟨_, hfe⟩ | hrec0
      · subst hfe
        simp [getK] at hmem
      · subst hu1
        exact Or.inr ⟨fun hc => hf1 hc.2, ⟨files0⟩, hrec0, hmem⟩
  · exact Or.inr ⟨fun hc => hu1 hc.1, d1, hold, h2⟩

/-- Any stored descriptor at a pair other than `(u, f)` has a `contentID`
different from the one `PutFile u f` writes its blob to. -/
theorem other_refs_ne_written_id {db : DB} {u f ct id : String} {b : Bytes}
    {files0 : List (String × FileMetadata)}
    (hUniq : UniqueRefs db) (hFresh : FreshID db id) (hload : LoadedIndex db u files0)
    {u2 f2 : String} {d2 : UserData} {md2 : FileMetadata}
    (hg : getK db.userFilesBucket u2 = some (IndexRecord.record d2))
    (hgf : getK d2.Files f2 = some md2)
    (hne : ¬(u2 = u ∧ f2 = f)) :
    md2.ID ≠ (descriptorFor files0 f ct b id).ID := by
  unfold descriptorFor
  cases hf0 : getK files0 f with
  | none => simpa using hFresh.2 u2 d2 f2 md2 hg hgf
  | some old =>
    rcases hload with ⟨_, hfe⟩ | hrec
    · subst hfe
      simp [getK] at hf0
    · intro hEq
      exact hne (hUniq u2 d2 f2 md2 u ⟨files0⟩ f old hg hgf hrec hf0 (by simpa using hEq))

/-- A committed `PutFile` preserves referential integrity (given the
freshness of the drawn identifier). -/
theorem putFileBody_refIntegrity {db : DB} {u f ct id : String} {b : Bytes}
    {files0 : List (String × FileMetadata)}
    (hInt : RefIntegrity db) (hFresh : FreshID db id)
    (hload : LoadedIndex db u files0) :
    RefIntegrity (putFileBody db u f ct b id files0) := by
  obtain ⟨hLive, hUniq⟩ := hInt
  constructor
  · intro u1 d1 f1 md1 h1 h2
    rw [putFileBody_filesBucket]
    rcases refs_after_putFileBody hload h1 h2 with ⟨_, _, hmd⟩ | ⟨hne, d0, hg, hgf⟩
    · rw [hmd, getK_putK_self]
      rfl
    · rw [getK_putK,
        if_neg (other_refs_ne_written_id hUniq hFresh hload hg hgf hne)]
      exact hLive u1 d0 f1 md1 hg hgf
  · intro u1 d1 f1 md1 u2 d2 f2 md2 h1 h2 h3 h4 hid
    rcases refs_after_putFileBody hload h1 h2 with ⟨hu1, hf1, hmd1⟩ | ⟨hne1, d01, hg1, hgf1⟩ <;>
      rcases refs_after_putFileBody hload h3 h4 with ⟨hu2, hf2, hmd2⟩ | ⟨hne2, d02, hg2, hgf2⟩
    · exact ⟨hu1.trans hu2.symm, hf1.trans hf2.symm⟩
    · exact absurd (hmd1 ▸ hid).symm
        (other_refs_ne_written_id hUniq hFresh hload hg2 hgf2 hne2)
    · exact absurd (hmd2 ▸ hid)
        (other_refs_ne_written_id hUniq hFresh hload hg1 hgf1 hne1)
    · exact hUniq u1 d01 f1 md1 u2 d02 f2 md2 hg1 hgf1 hg2 hgf2 hid

theorem putFile_refIntegrity {db db' : DB} {u f ct id : String} {b : Bytes}
    (hInt : RefIntegrity db) (hFresh : FreshID db id)
    (hok : PutFile db u f ct b id = Except.ok db') : RefIntegrity db' := by
  cases hu : getK db.userFilesBucket u with
  | none =>
    simp only [PutFile, hu, Except.ok.injEq] at hok
    exact hok ▸ putFileBody_refIntegrity hInt hFresh (Or.inl ⟨hu, rfl⟩)
  | some r =>
    cases r with
    | corrupt => simp [PutFile, hu] at hok
    | record d =>
      simp only [PutFile, hu, Except.ok.injEq] at hok
      exact hok ▸ putFileBody_refIntegrity hInt hFresh (Or.inr hu)

/-- Every descriptor visible after a committed `DeleteFile u f` is a
descriptor already stored before, at a pair other than `(u, f)`, and its
`contentID` differs from the deleted one. -/
theorem deleteFile_refIntegrity {db db' : DB} {u f : String}
    (hInt : RefIntegrity db) (hok : DeleteFile db u f = Except.ok db') :
    RefIntegrity db' := by
  obtain ⟨hLive, hUniq⟩ := hInt
  cases hu : getK db.userFilesBucket u with
  | none =>
    simp only [DeleteFile, hu, Except.ok.injEq] at hok
    exact hok ▸ ⟨hLive, hUniq⟩
  | some r =>
    cases r with
    | corrupt => simp [DeleteFile, hu] at hok
    | record d =>
      cases hf : getK d.Files f with
      | none => simp [DeleteFile, hu, hf] at hok
      | some md =>
        simp only [DeleteFile, hu, hf, Except.ok.injEq] at hok
        have hback : ∀ u1 d1 f1 md1,
            getK (putK db.userFilesBucket u (IndexRecord.record ⟨delK d.Files f⟩)) u1 =
              some (IndexRecord.record d1) →
            getK d1.Files f1 = some md1 →
            md1.ID ≠ md.ID ∧
              ∃ d0, getK db.userFilesBucket u1 = some (IndexRecord.record d0) ∧
                getK d0.Files f1 = some md1 := by
          intro u1 d1 f1 md1 h1 h2
          rcases getK_putK_cases h1 with ⟨hu1, hrec⟩ | ⟨hu1, hold⟩
          · injection hrec with hd1
            subst hd1
            obtain ⟨hf1, hmem⟩ := getK_delK_cases h2
            subst hu1
            refine ⟨fun hEq => hf1 ?_, d, hu, hmem⟩
            exact (hUniq u1 d f1 md1 u1 d f md hu hmem hu hf hEq).2
          · refine ⟨fun hEq => hu1 ?_, d1, hold, h2⟩
            exact (hUniq u1 d1 f1 md1 u d f md hold h2 hu hf hEq).1
        refine hok ▸ ⟨?_, ?_⟩
        · intro u1 d1 f1 md1 h1 h2
          obtain ⟨hne, d0, hg, hgf⟩ := hback u1 d1 f1 md1 h1 h2
          show (getK (delK db.filesBucket md.ID) md1.ID).isSome = true
          rw [getK_delK, if_neg hne]
          exact hLive u1 d0 f1 md1 hg hgf
        · intro u1 d1 f1 md1 u2 d2 f2 md2 h1 h2 h3 h4 hid
          obtain ⟨_, d01, hg1, hgf1⟩ := hback u1 d1 f1 md1 h1 h2
          obtain ⟨_, d02, hg2, hgf2⟩ := hback u2 d2 f2 md2 h3 h4
          exact hUniq u1 d01 f1 md1 u2 d02 f2 md2 hg1 hgf1 hg2 hgf2 hid

/-- C2: referential integrity holds in every reachable state and is
preserved by every operation — `ListFilenames` and `GetFile` open
read-only transactions and leave the state untouched, while the states
produced by committed `PutFile` and `DeleteFile` transactions are exactly
the `Reachable` steps: every referenced `contentID` has a live blob entry
and no blob entry is referenced by two distinct `(user, file name)`
pairs. -/
theorem refIntegrity_invariant (db : DB) (h : Reachable db) : RefIntegrity db := by
  induction h with
  | init =>
    constructor
    · intro u d f md h1 _
      simp [getK] at h1
    · intro u1 d1 f1 md1 u2 d2 f2 md2 h1 _ _ _ _
      simp [getK] at h1
  | put _ hFresh hok ih => exact putFile_refIntegrity ih hFresh hok
  | del _ hok ih => exact deleteFile_refIntegrity ih hok

theorem refIntegrity_invariant_witness :
    Reachable ⟨[("alice", IndexRecord.record ⟨[("a.txt", ⟨"id-1", "text/plain", 1⟩)]⟩)],
        [("id-1", [104])]⟩ ∧
      RefIntegrity ⟨[("alice", IndexRecord.record ⟨[("a.txt", ⟨"id-1", "text/plain", 1⟩)]⟩)],
        [("id-1", [104])]⟩ := by
  have hfresh : FreshID ⟨[], []⟩ "id-1" := by
    refine ⟨rfl, ?_⟩
    intro u d f md h
    simp [getK] at h
  have hok : PutFile ⟨[], []⟩ "alice" "a.txt" "text/plain" [104] "id-1" =
      Except.ok ⟨[("alice", IndexRecord.record ⟨[("a.txt", ⟨"id-1", "text/plain", 1⟩)]⟩)],
        [("id-1", [104])]⟩ := rfl
  have hr := Reachable.put Reachable.init hfresh hok
  exact ⟨hr, refIntegrity_invariant _ hr⟩

/-- Blob entries referenced from another user's index are untouched by the
blob write of `PutFile`. -/
theorem putFileBody_blob_isolation {db : DB} {u1 u2 f ct id : String} {b : Bytes}
    {files0 : List (String × FileMetadata)}
    (hne : u1 ≠ u2) (hUniq : UniqueRefs db) (hFresh : FreshID db id)
    (hload : LoadedIndex db u1 files0)
    {d : UserData} {g : String} {md : FileMetadata}
    (hg : getK db.userFilesBucket u2 = some (IndexRecord.record d))
    (hgf : getK d.Files g = some md) :
    getK (putFileBody db u1 f ct b id files0).filesBucket md.ID =
      getK db.filesBucket md.ID := by
  rw [putFileBody_filesBucket, getK_putK,
    if_neg (other_refs_ne_written_id hUniq hFresh hload hg hgf
      (fun hc => hne hc.1.symm))]

/-- C7: a `PutFile` by one user changes nothing another user can observe:
the other user's index record is bit-identical, their listing, every
`GetFile` outcome, the error outcome of their `DeleteFile`, and every blob
entry referenced from their index are the same before and after. -/
theorem putFile_user_isolation (db db' : DB) (u1 u2 f ct id : String) (b : Bytes)
    (hne : u1 ≠ u2) (hInt : RefIntegrity db) (hFresh : FreshID db id)
    (hok : PutFile db u1 f ct b id = Except.ok db') :
    getK db'.userFilesBucket u2 = getK db.userFilesBucket u2 ∧
    ListFilenames db' u2 = ListFilenames db u2 ∧
    (∀ g, GetFile db' u2 g = GetFile db u2 g) ∧
    errOf (DeleteFile db' u2 f) = errOf (DeleteFile db u2 f) ∧
    (∀ d g md, getK db.userFilesBucket u2 = some (IndexRecord.record d) →
      getK d.Files g = some md →
      getK db'.filesBucket md.ID = getK db.filesBucket md.ID) := by
  have main : ∀ files0, LoadedIndex db u1 files0 →
      db' = putFileBody db u1 f ct b id files0 →
      getK db'.userFilesBucket u2 = getK db.userFilesBucket u2 ∧
      ListFilenames db' u2 = ListFilenames db u2 ∧
      (∀ g, GetFile db' u2 g = GetFile db u2 g) ∧
      errOf (DeleteFile db' u2 f) = errOf (DeleteFile db u2 f) ∧
      (∀ d g md, getK db.userFilesBucket u2 = some (IndexRecord.record d) →
        getK d.Files g = some md →
        getK db'.filesBucket md.ID = getK db.filesBucket md.ID) := by
    intro files0 hload hdb'
    subst hdb'
    have hbucket : getK (putFileBody db u1 f ct b id files0).userFilesBucket u2 =
        getK db.userFilesBucket u2 := by
      rw [putFileBody_userFilesBucket, getK_putK, if_neg (Ne.symm hne)]
    refine ⟨hbucket, ?_, ?_, ?_, ?_⟩
    · simp only [ListFilenames, hbucket]
    · intro g
      cases hg2 : getK db.userFilesBucket u2 with
      | none =>
        simp [GetFile, hg2, hbucket.trans hg2]
      | some r =>
        cases r with
        | corrupt =>
          simp [GetFile, hg2, hbucket.trans hg2]
        | record d =>
          simp only [GetFile, hg2, hbucket.trans hg2]
          cases hgf : getK d.Files g with
          | none => rfl
          | some md =>
            show ((getK (putFileBody db u1 f ct b id files0).filesBucket md.ID).getD [],
                md.ContentType, true) =
              ((getK db.filesBucket md.ID).getD [], md.ContentType, true)
            rw [putFileBody_blob_isolation hne hInt.2 hFresh hload hg2 hgf]
    · cases hg2 : getK db.userFilesBucket u2 with
      | none =>
        simp [DeleteFile, hg2, hbucket.trans hg2, errOf]
      | some r =>
        cases r with
        | corrupt =>
          simp [DeleteFile, hg2, hbucket.trans hg2, errOf]
        | record d =>
          simp only [DeleteFile, hg2, hbucket.trans hg2]
          cases hgf : getK d.Files f with
          | none => rfl
          | some md => rfl
    · intro d g md hg hgf
      exact putFileBody_blob_isolation hne hInt.2 hFresh hload hg hgf
  cases hu : getK db.userFilesBucket u1 with
  | none =>
    simp only [PutFile, hu, Except.ok.injEq] at hok
    exact main [] (Or.inl ⟨hu, rfl⟩) hok.symm
  | some r =>
    cases r with
    | corrupt => simp [PutFile, hu] at hok
    | record d =>
      simp only [PutFile, hu, Except.ok.injEq] at hok
      exact main d.Files (Or.inr hu) hok.symm

theorem putFile_user_isolation_witness :
    getK (DB.userFilesBucket
        ⟨[("bob", IndexRecord.record ⟨[("g.txt", ⟨"id-b", "text/plain", 1⟩)]⟩),
          ("alice", IndexRecord.record ⟨[("f.txt", ⟨"id-a", "text/css", 2⟩)]⟩)],
          [("id-b", [7]), ("id-a", [1, 2])]⟩) "bob" =
      getK [("bob", IndexRecord.record ⟨[("g.txt", ⟨"id-b", "text/plain", 1⟩)]⟩)] "bob" ∧
    ListFilenames
        ⟨[("bob", IndexRecord.record ⟨[("g.txt", ⟨"id-b", "text/plain", 1⟩)]⟩),
          ("alice", IndexRecord.record ⟨[("f.txt", ⟨"id-a", "text/css", 2⟩)]⟩)],
          [("id-b", [7]), ("id-a", [1, 2])]⟩ "bob" =
      ListFilenames
        ⟨[("bob", IndexRecord.record ⟨[("g.txt", ⟨"id-b", "text/plain", 1⟩)]⟩)],
          [("id-b", [7])]⟩ "bob" ∧
    GetFile
        ⟨[("bob", IndexRecord.record ⟨[("g.txt", ⟨"id-b", "text/plain", 1⟩)]⟩),
          ("alice", IndexRecord.record ⟨[("f.txt", ⟨"id-a", "text/css", 2⟩)]⟩)],
          [("id-b", [7]), ("id-a", [1, 2])]⟩ "bob" "g.txt" =
      GetFile
        ⟨[("bob", IndexRecord.record ⟨[("g.txt", ⟨"id-b", "text/plain", 1⟩)]⟩)],
          [("id-b", [7])]⟩ "bob" "g.txt" ∧
    getK (DB.filesBucket
        ⟨[("bob", IndexRecord.record ⟨[("g.txt", ⟨"id-b", "text/plain", 1⟩)]⟩),
          ("alice", IndexRecord.record ⟨[("f.txt", ⟨"id-a", "text/css", 2⟩)]⟩)],
          [("id-b", [7]), ("id-a", [1, 2])]⟩) "id-b" =
      getK [("id-b", [7])] "id-b" := by
  have hInt : RefIntegrity ⟨[("bob", IndexRecord.record ⟨[("g.txt", ⟨"id-b", "text/plain", 1⟩)]⟩)],
      [("id-b", [7])]⟩ := by
    constructor
    · intro u d g md h1 h2
      rcases getK_putK_cases (m := []) (by simpa [putK] using h1) with ⟨hu, hrec⟩ | ⟨_, hold⟩
      · injection hrec with hd
        subst hd
        rcases getK_putK_cases (m := []) (by simpa [putK] using h2) with ⟨hg, hmd⟩ | ⟨_, hold2⟩
        · subst hmd
          rfl
        · simp [getK] at hold2
      · simp [getK] at hold
    · intro a1 e1 g1 n1 a2 e2 g2 n2 h1 h2 h3 h4 _
      rcases getK_putK_cases (m := []) (by simpa [putK] using h1) with ⟨hu1, hrec1⟩ | ⟨_, hold⟩
      · rcases getK_putK_cases (m := []) (by simpa [putK] using h3) with ⟨hu2, hrec2⟩ | ⟨_, hold⟩
        · injection hrec1 with he1
          injection hrec2 with he2
          subst he1; subst he2
          rcases getK_putK_cases (m := []) (by simpa [putK] using h2) with ⟨hg1, _⟩ | ⟨_, hold2⟩
          · rcases getK_putK_cases (m := []) (by simpa [putK] using h4) with ⟨hg2, _⟩ | ⟨_, hold2⟩
            · exact ⟨hu1.trans hu2.symm, hg1.trans hg2.symm⟩
            · simp [getK] at hold2
          · simp [getK] at hold2
        · simp [getK] at hold
      · simp [getK] at hold
  have hFresh : FreshID ⟨[("bob", IndexRecord.record ⟨[("g.txt", ⟨"id-b", "text/plain", 1⟩)]⟩)],
      [("id-b", [7])]⟩ "id-a" := by
    refine ⟨by simp [getK], ?_⟩
    intro u d g md h1 h2
    rcases getK_putK_cases (m := []) (by simpa [putK] using h1) with ⟨_, hrec⟩ | ⟨_, hold⟩
    · injection hrec with hd
      subst hd
      rcases getK_putK_cases (m := []) (by simpa [putK] using h2) with ⟨_, hmd⟩ | ⟨_, hold2⟩
      · subst hmd
        simp
      · simp [getK] at hold2
    · simp [getK] at hold
  have h := putFile_user_isolation
    ⟨[("bob", IndexRecord.record ⟨[("g.txt", ⟨"id-b", "text/plain", 1⟩)]⟩)], [("id-b", [7])]⟩
    ⟨[("bob", IndexRecord.record ⟨[("g.txt", ⟨"id-b", "text/plain", 1⟩)]⟩),
      ("alice", IndexRecord.record ⟨[("f.txt", ⟨"id-a", "text/css", 2⟩)]⟩)],
      [("id-b", [7]), ("id-a", [1, 2])]⟩
    "alice" "bob" "f.txt" "text/css" "id-a" [1, 2]
    (by simp) hInt hFresh rfl
  exact ⟨h.1, h.2.1, h.2.2.1 "g.txt",
    h.2.2.2.2 ⟨[("g.txt", ⟨"id-b", "text/plain", 1⟩)]⟩ "g.txt" ⟨"id-b", "text/plain", 1⟩
      (by simp [getK]) (by simp [getK])⟩

end GoFileServer
